import Mathlib

/-!
Verification of the CRD-to-sample-YAML converter (Skarlso/yaml-from-crd).

The repository has two traversals over the same OpenAPI-v3-shaped schema:

* `parseCRD` (wasm/app.go, package main) builds a tree of `Property`
  descriptors for the UI;
* `Parser.ParseProperties` (package pkg) streams a YAML sample document,
  using `outputValueType` for leaf value synthesis and
  `emptyAfterTrimRequired` for required-only filtering.

This file embeds both traversals shallowly.  Go maps are modelled as
association lists with first-binding-wins lookup; the in-place map
mutation performed by `emptyAfterTrimRequired` is made explicit by
threading the updated map through the recursion; Go nil-pointer
dereferences (runtime aborts) are modelled by an `Option` result where
`none` means the program aborts.  The two external library calls of
`outputValueType` (regexp.Compile succeeding, gofakeit.Regex) are
parameters of the embedding.  Since recursion in the source follows
pointer structure that the embedding reads through association lists, a
fuel parameter drives the recursion; fuel exhaustion also yields `none`
and the fuel is chosen large enough in all concrete runs.
-/

namespace CrdYaml

/-- One schema node, translated from k8s JSONSchemaProps as used by the
source: type, description, pattern, format, nullable, default, example,
enum, minimum, minItems, the required list scoped to its own properties,
the nested properties mapping, the array item schema and the
additional-properties schema.  `items = none` models a nil Items pointer,
`items = some none` a non-nil Items whose Schema pointer is nil
(similarly for `addProps`).  Raw JSON values (Default, Example, Enum
entries) are kept as opaque strings of their raw bytes. -/
inductive Schema : Type where
  | mk
    (type : String)
    (description : String)
    (pattern : String)
    (format : String)
    (nullable : Bool)
    (defaultVal : Option String)
    (exampleVal : Option String)
    (enum : Option (List String))
    (minimum : Option Int)
    (minItems : Option Nat)
    (required : List String)
    (properties : List (String × Schema))
    (items : Option (Option Schema))
    (addProps : Option (Option Schema))

namespace Schema

def type : Schema → String | .mk t _ _ _ _ _ _ _ _ _ _ _ _ _ => t

def description : Schema → String | .mk _ d _ _ _ _ _ _ _ _ _ _ _ _ => d

def pattern : Schema → String | .mk _ _ p _ _ _ _ _ _ _ _ _ _ _ => p

def format : Schema → String | .mk _ _ _ f _ _ _ _ _ _ _ _ _ _ => f

def nullable : Schema → Bool | .mk _ _ _ _ n _ _ _ _ _ _ _ _ _ => n

def defaultVal : Schema → Option String | .mk _ _ _ _ _ d _ _ _ _ _ _ _ _ => d

def exampleVal : Schema → Option String | .mk _ _ _ _ _ _ e _ _ _ _ _ _ _ => e

def enum : Schema → Option (List String) | .mk _ _ _ _ _ _ _ e _ _ _ _ _ _ => e

def minimum : Schema → Option Int | .mk _ _ _ _ _ _ _ _ m _ _ _ _ _ => m

def minItems : Schema → Option Nat | .mk _ _ _ _ _ _ _ _ _ m _ _ _ _ => m

def required : Schema → List String | .mk _ _ _ _ _ _ _ _ _ _ r _ _ _ => r

def properties : Schema → List (String × Schema) | .mk _ _ _ _ _ _ _ _ _ _ _ p _ _ => p

def items : Schema → Option (Option Schema) | .mk _ _ _ _ _ _ _ _ _ _ _ _ i _ => i

def addProps : Schema → Option (Option Schema) | .mk _ _ _ _ _ _ _ _ _ _ _ _ _ a => a

/-- Replace the nested properties mapping of a node (Go mutates the map
that the node points at; the embedding rebuilds the node). -/
def setProps : Schema → List (String × Schema) → Schema
  | .mk t d pa f n dv ev en mi mit req _ it ap, ps => .mk t d pa f n dv ev en mi mit req ps it ap

/-- Replace the properties mapping inside the array item schema. -/
def setItemProps (s : Schema) (ps : List (String × Schema)) : Schema :=
  match s.items with
  | some (some t) =>
    match s with
    | .mk ty d pa f n dv ev en mi mit req pr _ ap =>
      .mk ty d pa f n dv ev en mi mit req pr (some (some (t.setProps ps))) ap
  | _ => s

/-- Replace the properties mapping inside the additional-properties schema. -/
def setAddPropsProps (s : Schema) (ps : List (String × Schema)) : Schema :=
  match s.addProps with
  | some (some t) =>
    match s with
    | .mk ty d pa f n dv ev en mi mit req pr it _ =>
      .mk ty d pa f n dv ev en mi mit req pr it (some (some (t.setProps ps)))
  | _ => s

/-- Zero value of JSONSchemaProps, what a Go map lookup returns for a
missing key. -/
def zero : Schema := .mk "" "" "" "" false none none none none none [] [] none none

end Schema

/-- A properties mapping: field name to schema node. -/
abbrev PropsMap := List (String × Schema)

/-- Go map read `properties[k]`: first binding wins, zero value when the
key is missing. -/
def lookupD : PropsMap → String → Schema
  | [], _ => Schema.zero
  | (k2, v) :: rest, k => if k2 = k then v else lookupD rest k

/-- Go map write `properties[k] = v` for a key that is present: every
binding of `k` is replaced (an association list models a map, so at most
one binding is ever live). -/
def updateMap (props : PropsMap) (k : String) (v : Schema) : PropsMap :=
  props.map (fun p => if p.1 = k then (k, v) else p)

/-- Keys of a map in first-occurrence order, each once, mirroring
`for k := range properties`. -/
def dedupKeysAux : List String → List String → List String
  | [], _ => []
  | k :: rest, seen =>
    if seen.contains k then dedupKeysAux rest seen else k :: dedupKeysAux rest (k :: seen)

def dedupKeys (l : List String) : List String := dedupKeysAux l []

/-- Lexicographic comparison of character lists; on UTF-8 data this is
the byte order `sort.Strings` uses. -/
def charsLe : List Char → List Char → Bool
  | [], _ => true
  | _ :: _, [] => false
  | a :: as, b :: bs => if a = b then charsLe as bs else decide (a < b)

/-- String comparison used by the embedded `sort.Strings`. -/
def strLe (a b : String) : Bool := charsLe a.data b.data

/-- The order relation form of `strLe`. -/
def StrLe (a b : String) : Prop := strLe a b = true

instance : DecidableRel StrLe := fun _ _ => inferInstanceAs (Decidable (_ = true))

/-- The sorted key list both traversals build: collect the map keys and
`sort.Strings` them. -/
def sortedKeys (props : PropsMap) : List String :=
  List.insertionSort StrLe (dedupKeys (props.map Prod.fst))

/-- `strings.Repeat(" ", n)`. -/
def strRepeat (n : Nat) : String := String.mk (List.replicate n ' ')

def splitLinesAux : List Char → List Char → List String
  | [], acc => [String.mk acc.reverse]
  | c :: cs, acc =>
    if c = '\n' then String.mk acc.reverse :: splitLinesAux cs []
    else splitLinesAux cs (c :: acc)

/-- `strings.Split(s, "\n")`. -/
def splitLines (s : String) : List String := splitLinesAux s.data []

/-- `strings.Join(items, ",")`. -/
def joinComma : List String → String
  | [] => ""
  | [x] => x
  | x :: y :: xs => x ++ "," ++ joinComma (y :: xs)

/-- The function `outputValueType` of pkg, translated branch for branch.
`compiles` stands for regexp.Compile succeeding and `regexGen` for
gofakeit.Regex; both are opaque external calls in the source.  The result
is `none` exactly when the Go code dereferences a nil pointer or indexes
an empty slice: on `v.Items.Schema.Type` with a missing item schema, and
on `v.Enum[0]` with a non-nil empty enum list. -/
def outputValueType (compiles : String → Bool) (regexGen : String → String)
    (v : Schema) (skipRandom : Bool) : Option String :=
  match v.defaultVal with
  | some d => some d
  | none =>
    match v.exampleVal with
    | some e => some e
    | none =>
      if v.pattern != "" && !skipRandom && compiles v.pattern then
        some (regexGen v.pattern ++ " # " ++ v.pattern)
      else
        match v.enum with
        | some [] => none
        | some (e :: _) => some e
        | none =>
          if v.type == "string" then some "string"
          else if v.type == "integer" then
            some (match v.minimum with | some m => toString m | none => "1")
          else if v.type == "boolean" then some "true"
          else if v.type == "object" then some "\x7b\x7d"
          else if v.type == "array" then
            match v.items with
            | some (some s) =>
              let t := s.type
              let items := match v.minItems with | some n => List.replicate n t | none => []
              some ("[" ++ joinComma items ++ "] # minItems " ++ toString items.length
                ++ " of type " ++ t)
            | _ => none
          else some v.type

/-- The loop body of `Parser.emptyAfterTrimRequired`: delete from the map
every key that is not contained in the required list. -/
def trimLoop : PropsMap → List String → PropsMap
  | [], _ => []
  | (k, v) :: rest, req =>
    if req.contains k then (k, v) :: trimLoop rest req else trimLoop rest req

/-- `Parser.emptyAfterTrimRequired`: mutates the given properties map in
place (returned here as the second component) and reports whether it is
empty afterwards. -/
def emptyAfterTrimRequired (props : PropsMap) (required : List String) : Bool × PropsMap :=
  let t := trimLoop props required
  (t.isEmpty, t)

/-- The sink behind the io.Writer: a schedule saying which write calls
fail, the number of write calls seen so far, and the bytes successfully
written. -/
structure Sink where
  schedule : List Bool
  count : Nat
  out : String
deriving DecidableEq

def Sink.failsAt (snk : Sink) : Bool := snk.schedule.getD snk.count false

/-- The `writer.write` helper of pkg: skip the call once an error is
recorded, otherwise attempt the write on the sink. -/
def wwrite (werr : Option String) (snk : Sink) (msg : String) : Option String × Sink :=
  match werr with
  | some e => (some e, snk)
  | none =>
    if snk.failsAt then (some "write error", { snk with count := snk.count + 1 })
    else (none, { snk with count := snk.count + 1, out := snk.out ++ msg })

/-- The immutable configuration of a `Parser` (NewParser arguments), plus
the two external library functions used by value synthesis. -/
structure Config where
  group : String
  kind : String
  comments : Bool
  onlyRequired : Bool
  skipRandom : Bool
  compiles : String → Bool
  regexGen : String → String

/-- The mutable traversal state of a `Parser`: the in-array flag and the
indentation counter, shared by reference across recursion levels. -/
structure PState where
  inArray : Bool
  indent : Nat
deriving DecidableEq

/-- Early return from the field loop (a nested recursion failed):
the propagated error together with the parser state, the sink and the
current (possibly mutated) properties map at that point. -/
abbrev StepErr := String × PState × Sink × PropsMap

/-- Normal continuation of the field loop: the per-call writer error so
far, the parser state, the sink and the current properties map. -/
abbrev StepOk := Option String × PState × Sink × PropsMap

/-- Result of one full `ParseProperties` call: `none` when the program
aborts, otherwise the returned error-or-unit together with the parser
state, the sink and the (possibly mutated) properties map. -/
abbrev ChildRes := Option (Except String Unit × PState × Sink × PropsMap)

/-- The key-or-comment emission at the top of the field loop body: inside
an array item the key is written bare and the flag cleared; otherwise an
optional description comment is written, then the indented key. -/
def emitHead (cfg : Config) (k : String) (werr : Option String) (st : PState) (snk : Sink)
    (v : Schema) : Option String × Sink × PState :=
  if st.inArray then
    let w := wwrite werr snk (k ++ ":")
    (w.1, w.2, { st with inArray := false })
  else
    let w1 :=
      if cfg.comments && v.description != "" then
        let comment := (splitLines v.description).foldl
          (fun acc line => acc ++ strRepeat st.indent ++ "# " ++ line ++ "\n") ""
        wwrite werr snk comment
      else (werr, snk)
    let w2 := wwrite w1.1 w1.2 (strRepeat st.indent ++ k ++ ":")
    (w2.1, w2.2, st)

/-- Mutation effect of one field-loop iteration on the enclosing
properties map: either untouched, or the node under the current key
replaced (what the in-place mutation of the shared child map amounts to
when the child map is stored inside the node). -/
inductive MapAct : Type where
  | keep : MapAct
  | update : Schema -> MapAct

/-- Apply a map effect under key `k`. -/
def applyAct (props : PropsMap) (k : String) : MapAct -> PropsMap
  | .keep => props
  | .update v2 => updateMap props k v2

/-- Early return carrying a map effect instead of the map. -/
abbrev CoreErr := String × PState × Sink × MapAct

/-- Normal continuation carrying a map effect instead of the map. -/
abbrev CoreOk := Option String × PState × Sink × MapAct

/-- One iteration of the field loop of `Parser.ParseProperties` for the
node `v` under key `k`, translated line by line: key/comment emission,
then the three-case switch (leaf with sentinel substitution and
array-of-objects handling, nested object, additional properties), with
required-only trimming.  The iteration touches the enclosing map only by
replacing the node under `k`, so it is phrased against the node alone and
returns the map effect; `goStep` below applies it.  `child` is the
recursive `ParseProperties` call. -/
def goStepCore (cfg : Config) (ver : String)
    (child : PState -> Sink -> PropsMap -> ChildRes)
    (k : String) (werr : Option String) (st : PState) (snk : Sink)
    (v : Schema) : Option (Except CoreErr CoreOk) :=
  let head := emitHead cfg k werr st snk v
  let werr1 := head.1
  let snk1 := head.2.1
  let st1 := head.2.2
  if v.properties.isEmpty && v.addProps.isNone then
    -- case 1: no nested properties and no additional properties
    if k == "apiVersion" then
      let w := wwrite werr1 snk1 (" " ++ cfg.group ++ "/" ++ ver ++ "\n")
      some (.ok (w.1, st1, w.2, .keep))
    else if k == "kind" && st1.indent == 0 then
      let w := wwrite werr1 snk1 (" " ++ cfg.kind ++ "\n")
      some (.ok (w.1, st1, w.2, .keep))
    else
      if v.type == "array" then
        match v.items with
        | none => none
        | some itemsSchema =>
          match itemsSchema with
          | some s =>
            if !s.properties.isEmpty then
              -- array of objects: sequence-item marker, then recurse
              let w := wwrite werr1 snk1 ("\n" ++ strRepeat st1.indent ++ "- ")
              let st2 : PState := { st1 with indent := st1.indent + 2, inArray := true }
              if cfg.onlyRequired then
                let et := emptyAfterTrimRequired s.properties s.required
                if et.1 then
                  let w2 := wwrite w.1 w.2 " \x7b\x7d\n"
                  some (.ok (w2.1,
                    { st2 with indent := st2.indent - 2, inArray := false }, w2.2,
                    .update (v.setItemProps et.2)))
                else
                  match child st2 w.2 et.2 with
                  | none => none
                  | some (.error e, stE, snkE, chP) =>
                    some (.error (e, stE, snkE, .update (v.setItemProps chP)))
                  | some (.ok _, stO, snkO, chP) =>
                    some (.ok (w.1, { stO with indent := stO.indent - 2 }, snkO,
                      .update (v.setItemProps chP)))
              else
                match child st2 w.2 s.properties with
                | none => none
                | some (.error e, stE, snkE, chP) =>
                  some (.error (e, stE, snkE, .update (v.setItemProps chP)))
                | some (.ok _, stO, snkO, chP) =>
                  some (.ok (w.1, { stO with indent := stO.indent - 2 }, snkO,
                    .update (v.setItemProps chP)))
            else
              match outputValueType cfg.compiles cfg.regexGen v cfg.skipRandom with
              | none => none
              | some val =>
                let w := wwrite werr1 snk1 (" " ++ val ++ "\n")
                some (.ok (w.1, st1, w.2, .keep))
          | none =>
            match outputValueType cfg.compiles cfg.regexGen v cfg.skipRandom with
            | none => none
            | some val =>
              let w := wwrite werr1 snk1 (" " ++ val ++ "\n")
              some (.ok (w.1, st1, w.2, .keep))
      else
        match outputValueType cfg.compiles cfg.regexGen v cfg.skipRandom with
        | none => none
        | some val =>
          let w := wwrite werr1 snk1 (" " ++ val ++ "\n")
          some (.ok (w.1, st1, w.2, .keep))
  else if !v.properties.isEmpty then
    -- case 2: nested object
    let st2 : PState := { st1 with indent := st1.indent + 2 }
    if cfg.onlyRequired then
      let et := emptyAfterTrimRequired v.properties v.required
      if et.1 then
        let w := wwrite werr1 snk1 " \x7b\x7d\n"
        some (.ok (w.1, { st2 with indent := st2.indent - 2 }, w.2, .update (v.setProps et.2)))
      else
        let w := wwrite werr1 snk1 "\n"
        match child st2 w.2 et.2 with
        | none => none
        | some (.error e, stE, snkE, chP) =>
          some (.error (e, stE, snkE, .update (v.setProps chP)))
        | some (.ok _, stO, snkO, chP) =>
          some (.ok (w.1, { stO with indent := stO.indent - 2 }, snkO,
            .update (v.setProps chP)))
    else
      let w := wwrite werr1 snk1 "\n"
      match child st2 w.2 v.properties with
      | none => none
      | some (.error e, stE, snkE, chP) =>
        some (.error (e, stE, snkE, .update (v.setProps chP)))
      | some (.ok _, stO, snkO, chP) =>
        some (.ok (w.1, { stO with indent := stO.indent - 2 }, snkO,
          .update (v.setProps chP)))
  else
    -- case 3: additional properties present (and nested properties empty)
    match v.addProps with
    | some ap =>
      if v.properties.isEmpty || (match ap with | none => true | some s => s.properties.isEmpty) then
        let w := wwrite werr1 snk1 " \x7b\x7d\n"
        some (.ok (w.1, st1, w.2, .keep))
      else
        match ap with
        | some s =>
          let st2 : PState := { st1 with indent := st1.indent + 2 }
          if cfg.onlyRequired then
            let et := emptyAfterTrimRequired s.properties s.required
            if et.1 then
              let w := wwrite werr1 snk1 " \x7b\x7d\n"
              some (.ok (w.1, { st2 with indent := st2.indent - 2 }, w.2,
                .update (v.setAddPropsProps et.2)))
            else
              let w := wwrite werr1 snk1 "\n"
              match child st2 w.2 et.2 with
              | none => none
              | some (.error e, stE, snkE, chP) =>
                some (.error (e, stE, snkE, .update (v.setAddPropsProps chP)))
              | some (.ok _, stO, snkO, chP) =>
                some (.ok (w.1, { stO with indent := stO.indent - 2 }, snkO,
                  .update (v.setAddPropsProps chP)))
          else
            let w := wwrite werr1 snk1 "\n"
            match child st2 w.2 s.properties with
            | none => none
            | some (.error e, stE, snkE, chP) =>
              some (.error (e, stE, snkE, .update (v.setAddPropsProps chP)))
            | some (.ok _, stO, snkO, chP) =>
              some (.ok (w.1, { stO with indent := stO.indent - 2 }, snkO,
                .update (v.setAddPropsProps chP)))
        | none => some (.ok (werr1, st1, snk1, .keep))
    | none => some (.ok (werr1, st1, snk1, .keep))

/-- One iteration of the field loop over the enclosing map: look the node
up, run the iteration body, apply the map effect. -/
def goStep (cfg : Config) (ver : String)
    (child : PState -> Sink -> PropsMap -> ChildRes)
    (k : String) (werr : Option String) (st : PState) (snk : Sink)
    (props : PropsMap) : Option (Except StepErr StepOk) :=
  let v := lookupD props k
  match goStepCore cfg ver child k werr st snk v with
  | none => none
  | some (.error (e, st2, s2, act)) => some (.error (e, st2, s2, applyAct props k act))
  | some (.ok (w, st2, s2, act)) => some (.ok (w, st2, s2, applyAct props k act))

/-- The field loop of `Parser.ParseProperties` over the sorted key list:
run `goStep` per key, stopping early when a nested recursion failed. -/
def goLoop (cfg : Config) (ver : String)
    (child : PState → Sink → PropsMap → ChildRes) :
    List String → Option String → PState → Sink → PropsMap →
    Option (Except StepErr StepOk)
  | [], werr, st, snk, props => some (.ok (werr, st, snk, props))
  | k :: rest, werr, st, snk, props =>
    match goStep cfg ver child k werr st snk props with
    | none => none
    | some (.error e) => some (.error e)
    | some (.ok (werr2, st2, snk2, props2)) => goLoop cfg ver child rest werr2 st2 snk2 props2

/-- `Parser.ParseProperties` with an explicit fuel bound on the recursion
depth: sort the keys, run the loop with a fresh per-call writer, and wrap
a recorded write error once at the end. -/
def goProps : Nat → Config → String → PState → Sink → PropsMap → ChildRes
  | 0, _, _, _, _, _ => none
  | fuel + 1, cfg, ver, st, snk, props =>
    match goLoop cfg ver (goProps fuel cfg ver) (sortedKeys props) none st snk props with
    | none => none
    | some (.error (e, st2, snk2, props2)) => some (.error e, st2, snk2, props2)
    | some (.ok (werr, st2, snk2, props2)) =>
      match werr with
      | some e => some (.error ("failed to write to file: " ++ e), st2, snk2, props2)
      | none => some (.ok (), st2, snk2, props2)

mutual

/-- Fuel bound: an upper bound on the schema nesting depth of one node. -/
def schemaFuel : Schema → Nat
  | .mk _ _ _ _ _ _ _ _ _ _ _ props it ap =>
    1 + listFuel props + optFuel it + optFuel ap

def optFuel : Option (Option Schema) → Nat
  | some (some s) => schemaFuel s
  | _ => 0

/-- Fuel bound: an upper bound on the schema nesting depth of a map. -/
def listFuel : PropsMap → Nat
  | [] => 0
  | (_, s) :: rest => schemaFuel s + listFuel rest

end

/-- Entry point matching `Parser.ParseProperties` on a fresh parser
state (NewParser leaves inArray false and indent 0). -/
def ParseProperties (cfg : Config) (ver : String) (snk : Sink) (props : PropsMap) : ChildRes :=
  goProps (listFuel props + 1) cfg ver { inArray := false, indent := 0 } snk props

/-- The `Property` descriptor built by `parseCRD` for the display tree,
field for field from the Go struct (Indent is never written by parseCRD
and stays at its zero value). -/
inductive Property : Type where
  | mk
    (name : String)
    (description : String)
    (type : String)
    (nullable : Bool)
    (patterns : String)
    (format : String)
    (indent : Nat)
    (version : String)
    (defaultVal : String)
    (required : Bool)
    (properties : List Property)

namespace Property

def name : Property → String | .mk n _ _ _ _ _ _ _ _ _ _ => n

def type : Property → String | .mk _ _ t _ _ _ _ _ _ _ _ => t

def required : Property → Bool | .mk _ _ _ _ _ _ _ _ _ r _ => r

def properties : Property → List Property | .mk _ _ _ _ _ _ _ _ _ _ ps => ps

/-- Attach the recursively built child descriptors (`p.Properties = out`). -/
def setChildren : Property → List Property → Property
  | .mk n d t nu pa f i v df r _, ps => .mk n d t nu pa f i v df r ps

end Property

/-- Sequencing for aborting-or-failing computations: an abort or an error
on the left short-circuits, exactly like the `if err != nil` returns after
each recursive `parseCRD` call. -/
def exBind {α β : Type} (x : Option (Except String α))
    (f : α → Option (Except String β)) : Option (Except String β) :=
  match x with
  | none => none
  | some (.error e) => some (.error e)
  | some (.ok a) => f a

/-- The loop of `parseCRD` over the sorted key list.  The accumulator
`req` models the `requiredList` parameter variable, which the source
reassigns (`requiredList = v.Required`) before each recursive call, so
the new list is also what later iterations of the same loop check their
own required flag against.  `child` is the recursive `parseCRD` call;
`none` models a nil-pointer dereference (on a nil `Items` of an array
node, or a nil `AdditionalProperties.Schema`). -/
def crdLoop (ver : String)
    (child : PropsMap → List String → Option (Except String (List Property))) :
    List String → PropsMap → List String → Option (Except String (List Property))
  | [], _, _ => some (.ok [])
  | k :: rest, props, req =>
    let v := lookupD props k
    let required := req.contains k
    let base : Property := .mk k v.description v.type v.nullable v.pattern v.format 0 ver
      (match v.defaultVal with | some d => d | none => "") required []
    if !v.properties.isEmpty && v.addProps.isNone then
      exBind (child v.properties v.required) fun out =>
      exBind (crdLoop ver child rest props v.required) fun outRest =>
      some (.ok (base.setChildren out :: outRest))
    else
      let cond2 : Option Bool :=
        if v.type == "array" then
          match v.items with
          | none => none
          | some none => some false
          | some (some s) => some (!s.properties.isEmpty)
        else some false
      match cond2 with
      | none => none
      | some true =>
        let itemProps := match v.items with | some (some s) => s.properties | _ => []
        exBind (child itemProps v.required) fun out =>
        exBind (crdLoop ver child rest props v.required) fun outRest =>
        some (.ok (base.setChildren out :: outRest))
      | some false =>
        match v.addProps with
        | some ap =>
          match ap with
          | none => none
          | some s =>
            exBind (child s.properties v.required) fun out =>
            exBind (crdLoop ver child rest props v.required) fun outRest =>
            some (.ok (base.setChildren out :: outRest))
        | none =>
          exBind (crdLoop ver child rest props req) fun outRest =>
          some (.ok (base :: outRest))

/-- `parseCRD` with an explicit fuel bound on the recursion depth. -/
def parseCRDgo : Nat → PropsMap → String → List String → Option (Except String (List Property))
  | 0, _, _, _ => none
  | fuel + 1, props, ver, req =>
    crdLoop ver (fun p r => parseCRDgo fuel p ver r) (sortedKeys props) props req

/-- Entry point matching `parseCRD(properties, version, requiredList)`. -/
def parseCRD (props : PropsMap) (ver : String) (req : List String) :
    Option (Except String (List Property)) :=
  parseCRDgo (listFuel props + 1) props ver req

/-! Concrete schema nodes, configurations and inputs used by the
counterexamples and witnesses below. -/

/-- A plain string leaf node. -/
def leafString : Schema := .mk "string" "" "" "" false none none none none none [] [] none none

/-- A string leaf node carrying a description. -/
def leafDesc : Schema := .mk "string" "d" "" "" false none none none none none [] [] none none

/-- Parser configuration with every option off. -/
def cfgPlain : Config := ⟨"g", "K", false, false, false, fun _ => false, fun _ => ""⟩

/-- Parser configuration with descriptive comments enabled. -/
def cfgComments : Config := ⟨"g", "K", true, false, false, fun _ => false, fun _ => ""⟩

/-- Parser configuration in required-only (minimal) mode. -/
def cfgRequired : Config := ⟨"g", "K", false, true, false, fun _ => false, fun _ => ""⟩

/-- A fresh sink whose writes all succeed. -/
def sinkNew : Sink := ⟨[], 0, ""⟩

/-- A sink whose first two writes fail. -/
def sinkFailing : Sink := ⟨[true, true], 0, ""⟩

/-- C1 input: field a is a nested object whose own required list is x;
its sibling b is a leaf, and the enclosing scope requires b. -/
def crdC1props : PropsMap :=
  [("a", .mk "object" "" "" "" false none none none none none ["x"] [("x", leafString)] none none),
   ("b", leafString)]

/-- C2 input: a field named apiVersion that is a nested object. -/
def c2props : PropsMap :=
  [("apiVersion", .mk "object" "" "" "" false none none none none none [] [("x", leafString)] none none)]

/-- C5 input: an object scope with fields a and b of which only a is required. -/
def c5props : PropsMap :=
  [("spec", .mk "object" "" "" "" false none none none none none ["a"]
    [("a", leafString), ("b", leafString)] none none)]

/-- C7 input: an array of objects whose single item field b carries a description. -/
def c7props : PropsMap :=
  [("a", .mk "array" "" "" "" false none none none none none [] []
    (some (some (.mk "" "" "" "" false none none none none none [] [("b", leafDesc)] none none)))
    none)]

/-- C8 input: a single nested object with one leaf field. -/
def c8props : PropsMap :=
  [("s", .mk "object" "" "" "" false none none none none none [] [("a", leafString)] none none)]

/-- C10 input: a node with AdditionalProperties present but a nil schema
pointer, as deserialized from `additionalProperties: true`. -/
def c10props : PropsMap :=
  [("m", .mk "object" "" "" "" false none none none none none [] [] none (some none))]

/-- C6 input: an array-typed node whose Items pointer is nil. -/
def vArrNoItems : Schema := .mk "array" "" "" "" false none none none none none [] [] none none

/-- C6 input: a node with a non-nil but empty enum list. -/
def vEnumEmpty : Schema := .mk "string" "" "" "" false none none (some []) none none [] [] none none

/-- C3 witness input: a node with both a default and an example. -/
def vDefEx : Schema := .mk "string" "" "" "" false (some "D") (some "E") none none none [] [] none none

/-- C3 witness input: a node with an example and a pattern. -/
def vExPat : Schema := .mk "string" "" "pat" "" false none (some "E") none none none [] [] none none

/-- C6 witness input: a well-formed node with item schema and a non-empty enum. -/
def vWellFormed : Schema :=
  .mk "array" "" "" "" false none none (some ["x"]) none none [] [] (some (some leafString)) none

/-- C4 witness input: an object whose field a is not in its required list zz. -/
def vObjTrim : Schema :=
  .mk "object" "" "" "" false none none none none none ["zz"] [("a", leafString)] none none

/-- C4 witness input: the item schema of an array of objects, with an
empty required list. -/
def sItemTrim : Schema :=
  .mk "" "" "" "" false none none none none none [] [("a", leafString)] none none

/-- C4 witness input: an array of objects whose item fields are all trimmed. -/
def vArrTrim : Schema :=
  .mk "array" "" "" "" false none none none none none [] [] (some (some sItemTrim)) none

/-- C4 witness input: a map-like node (additional properties, nil schema). -/
def vMapNil : Schema :=
  .mk "object" "" "" "" false none none none none none [] [] none (some none)

/-- One comment line per description line, each indented to the current
level: the block the emitter writes before a field key line when comments
are enabled. -/
def commentBlock (ind : Nat) : List String → String
  | [] => ""
  | line :: rest => (strRepeat ind ++ "# " ++ line ++ "\n") ++ commentBlock ind rest

/-- The observable outcome of an emitter run: result, parser state and
sink, without the threaded properties map (whose entry order reflects the
association-list representation rather than anything the program emits). -/
def runOut (r : ChildRes) : Option (Except String Unit × PState × Sink) :=
  r.map (fun x => (x.1, x.2.1, x.2.2.1))

/-- Permutation with unique keys: two association lists representing the
same Go map. -/
def MapRel (m1 m2 : PropsMap) : Prop := m1.Perm m2 ∧ (m1.map Prod.fst).Nodup

/-- Results of one field-loop step agree except that their threaded maps
are again two representations of the same Go map. -/
def stepRel : Option (Except StepErr StepOk) → Option (Except StepErr StepOk) → Prop
  | none, r2 => r2 = none
  | some (.error (e1, st1, s1, m1)), r2 =>
      ∃ m2, r2 = some (.error (e1, st1, s1, m2)) ∧ MapRel m1 m2
  | some (.ok (w1, st1, s1, m1)), r2 =>
      ∃ m2, r2 = some (.ok (w1, st1, s1, m2)) ∧ MapRel m1 m2

end CrdYaml

namespace CrdYaml

/-! Helper lemmas. -/

theorem trimLoop_eq_filter (props : PropsMap) (req : List String) :
    trimLoop props req = props.filter (fun p => req.contains p.1) := by
  induction props with
  | nil => rfl
  | cons p rest ih =>
    obtain ⟨k, v⟩ := p
    by_cases h : k ∈ req <;> simp [trimLoop, List.filter_cons, ih, h]

/-- Helper for C7: the comment string builder loop is the comment block. -/
theorem foldl_comment_eq (ind : Nat) :
    ∀ (l : List String) (s : String),
      l.foldl (fun acc line => acc ++ strRepeat ind ++ "# " ++ line ++ "\n") s
        = s ++ commentBlock ind l := by
  intro l
  induction l with
  | nil => intro s; simp [commentBlock, String.append_empty]
  | cons x xs ih =>
    intro s
    rw [List.foldl_cons, ih]
    simp [commentBlock, String.append_assoc]

/-- C1: In parseCRD the required flag of a later sibling is checked
against the child required list of an earlier nested sibling, because the
loop reassigns its requiredList variable before recursing.  On a scope
whose required list is exactly b, the leaf b is nevertheless reported as
not required once it is preceded by the nested object a (whose own
required list is x).  The spec invariant says b must be checked against
the original scope list and hence be required. -/
theorem parseCRD_required_clobbered_by_sibling :
    (parseCRD crdC1props "v1" ["b"]).map
        (fun r => r.map (fun l => l.map (fun p => (p.name, p.required))))
      = some (.ok [("a", false), ("b", false)])
    ∧ ["b"].contains "b" = true :=
  ⟨by rfl, by rfl⟩

/-- C2 counterexample: a field literally named apiVersion that has nested
properties is not substituted; the emitter recurses into it instead of
emitting group/version, because the sentinel check sits inside the leaf
branch of the shape classification, not before it. -/
theorem apiVersion_nested_is_not_substituted :
    (goProps 3 cfgPlain "v1" ⟨false, 0⟩ sinkNew c2props).map
        (fun r => (r.1, r.2.2.1.out))
      = some (.ok (), "apiVersion:\n  x: string\n")
    ∧ "apiVersion:\n  x: string\n" ≠ "apiVersion: g/v1\n" :=
  ⟨rfl, by decide⟩

/-- C2 (amended): sentinel substitution is evaluated inside the leaf
branch of the four-way classification, not before it.  For any field
with no nested properties and no additional-properties, a field named
apiVersion emits group/version at any depth, and a field named kind at
nesting depth zero emits the CRD kind; both are terminal and independent
of the declared type, items, constraints or values of the node.  A field
named kind that is not at depth zero falls through to ordinary value
synthesis. -/
theorem sentinel_substitution_in_leaf_branch :
    (∀ fuel cfg ver v ind c o, v.properties = [] → v.addProps = none → v.description = "" →
      goProps (fuel + 1) cfg ver ⟨false, ind⟩ ⟨[], c, o⟩ [("apiVersion", v)]
        = some (.ok (), ⟨false, ind⟩,
            ⟨[], c + 2, o ++ (strRepeat ind ++ "apiVersion" ++ ":")
              ++ (" " ++ cfg.group ++ "/" ++ ver ++ "\n")⟩,
            [("apiVersion", v)]))
    ∧ (∀ fuel cfg ver v c o, v.properties = [] → v.addProps = none → v.description = "" →
      goProps (fuel + 1) cfg ver ⟨false, 0⟩ ⟨[], c, o⟩ [("kind", v)]
        = some (.ok (), ⟨false, 0⟩,
            ⟨[], c + 2, o ++ (strRepeat 0 ++ "kind" ++ ":") ++ (" " ++ cfg.kind ++ "\n")⟩,
            [("kind", v)]))
    ∧ (goProps 3 cfgPlain "v1" ⟨false, 2⟩ sinkNew [("kind", leafString)]).map
        (fun r => (r.1, r.2.2.1.out)) = some (.ok (), "  kind: string\n") := by
  refine ⟨?_, ?_, by rfl⟩ <;>
  · intro fuel cfg ver v
    intros
    simp [goProps, goLoop, goStep, goStepCore, applyAct, emitHead, sortedKeys, dedupKeys, dedupKeysAux, lookupD,
      wwrite, Sink.failsAt, *]

/-- C2 witness: concrete substituted leaves, one apiVersion of declared
type object and one kind of declared type array, both emitted terminally. -/
theorem sentinel_substitution_in_leaf_branch_witness :
    goProps 1 cfgPlain "v1" ⟨false, 4⟩ sinkNew
        [("apiVersion", Schema.mk "object" "" "" "" false none none none none none [] [] none none)]
      = some (.ok (), ⟨false, 4⟩,
          ⟨[], 2, "" ++ (strRepeat 4 ++ "apiVersion" ++ ":") ++ (" " ++ "g" ++ "/" ++ "v1" ++ "\n")⟩,
          [("apiVersion", Schema.mk "object" "" "" "" false none none none none none [] [] none none)])
    ∧ goProps 1 cfgPlain "v1" ⟨false, 0⟩ sinkNew
        [("kind", Schema.mk "array" "" "" "" false none none none none none [] [] none none)]
      = some (.ok (), ⟨false, 0⟩,
          ⟨[], 2, "" ++ (strRepeat 0 ++ "kind" ++ ":") ++ (" " ++ "K" ++ "\n")⟩,
          [("kind", Schema.mk "array" "" "" "" false none none none none none [] [] none none)]) :=
  ⟨sentinel_substitution_in_leaf_branch.1 0 cfgPlain "v1" _ 4 0 "" rfl rfl rfl,
   sentinel_substitution_in_leaf_branch.2.1 0 cfgPlain "v1" _ 0 "" rfl rfl rfl⟩

/-- C3: value synthesis follows the strict precedence default, example,
compilable pattern (unless random synthesis is disabled), first enum
value, then type dispatch, stopping at the first applicable rule.  In
particular a node with a default emits the default whatever else it has;
a node without a default but with an example emits the example, never
attempting pattern synthesis; a compilable pattern beats the enum; and
when the pattern rule does not fire the first enum value wins over type
dispatch. -/
theorem outputValueType_precedence :
    (∀ compiles regexGen v skip d, v.defaultVal = some d →
      outputValueType compiles regexGen v skip = some d)
    ∧ (∀ compiles regexGen v skip e, v.defaultVal = none → v.exampleVal = some e →
      outputValueType compiles regexGen v skip = some e)
    ∧ (∀ compiles regexGen v, v.defaultVal = none → v.exampleVal = none →
      (v.pattern != "") = true → compiles v.pattern = true →
      outputValueType compiles regexGen v false
        = some (regexGen v.pattern ++ " # " ++ v.pattern))
    ∧ (∀ compiles regexGen v skip e rest, v.defaultVal = none → v.exampleVal = none →
      (v.pattern != "" && !skip && compiles v.pattern) = false → v.enum = some (e :: rest) →
      outputValueType compiles regexGen v skip = some e) := by
  refine ⟨?_, ?_, ?_, ?_⟩ <;> intros <;> simp_all [outputValueType]

/-- C3 witness: with both default D and example E the default wins; with
example E and a compilable pattern the example wins. -/
theorem outputValueType_precedence_witness :
    outputValueType (fun _ => true) (fun _ => "R") vDefEx false = some "D"
    ∧ outputValueType (fun _ => true) (fun _ => "R") vExPat false = some "E" :=
  ⟨outputValueType_precedence.1 _ _ _ _ _ rfl,
   outputValueType_precedence.2.1 _ _ _ _ _ rfl rfl⟩

/-- C5: required-only filtering deletes, in the properties mapping passed
in, exactly the keys missing from the required list: the mutated map is
the filter of the original by required membership (so the deletion is
observable afterwards).  Concretely, after a required-only run over a
scope requiring only a, the schema node handed back holds a child mapping
reduced to the single key a. -/
theorem emptyAfterTrimRequired_filters_in_place :
    (∀ props required, emptyAfterTrimRequired props required
        = ((props.filter (fun p => required.contains p.1)).isEmpty,
           props.filter (fun p => required.contains p.1)))
    ∧ (goProps 3 cfgRequired "v" ⟨false, 0⟩ sinkNew c5props).map
        (fun r => (lookupD r.2.2.2 "spec").properties.map Prod.fst) = some ["a"] := by
  refine ⟨fun props required => ?_, by rfl⟩
  simp [emptyAfterTrimRequired, trimLoop_eq_filter]

/-- C4: in required-only mode, every scope the emitter is about to
recurse into whose field set is empty after trimming to the required list
gets an empty-object marker and no recursion.  The conclusion holds for
every fuel value, in particular fuel zero where any attempted descent
would abort, so no recursion takes place; the final state, sink and
mapping are fully determined without the child contents.  Conjunct one is
the nested-object shape, conjunct two the array-item shape (the marker
follows the already emitted sequence-item dash), and conjunct three shows
that a reachable map-like field always emits the marker and never
recurses at all. -/
theorem empty_after_trim_emits_marker_without_recursion :
    (∀ fuel cfg ver k v ind c o, cfg.onlyRequired = true → v.description = "" →
      v.properties.isEmpty = false →
      (emptyAfterTrimRequired v.properties v.required).1 = true →
      goProps (fuel + 1) cfg ver ⟨false, ind⟩ ⟨[], c, o⟩ [(k, v)]
        = some (.ok (), ⟨false, ind⟩,
            ⟨[], c + 2, o ++ (strRepeat ind ++ k ++ ":") ++ " \x7b\x7d\n"⟩,
            [(k, v.setProps (emptyAfterTrimRequired v.properties v.required).2)]))
    ∧ (∀ fuel cfg ver k v s ind c o, cfg.onlyRequired = true → v.description = "" →
      (k == "apiVersion") = false → (k == "kind") = false →
      v.properties = [] → v.addProps = none → v.type = "array" →
      v.items = some (some s) → s.properties.isEmpty = false →
      (emptyAfterTrimRequired s.properties s.required).1 = true →
      goProps (fuel + 1) cfg ver ⟨false, ind⟩ ⟨[], c, o⟩ [(k, v)]
        = some (.ok (), ⟨false, ind⟩,
            ⟨[], c + 3, (o ++ (strRepeat ind ++ k ++ ":") ++ ("\n" ++ strRepeat ind ++ "- "))
              ++ " \x7b\x7d\n"⟩,
            [(k, v.setItemProps (emptyAfterTrimRequired s.properties s.required).2)]))
    ∧ (∀ fuel cfg ver k v ap ind c o, v.description = "" →
      v.properties = [] → v.addProps = some ap →
      goProps (fuel + 1) cfg ver ⟨false, ind⟩ ⟨[], c, o⟩ [(k, v)]
        = some (.ok (), ⟨false, ind⟩,
            ⟨[], c + 2, o ++ (strRepeat ind ++ k ++ ":") ++ " \x7b\x7d\n"⟩,
            [(k, v)])) := by
  refine ⟨?_, ?_, ?_⟩ <;>
  · intro fuel cfg ver k v
    intros
    simp [goProps, goLoop, goStep, goStepCore, applyAct, emitHead, sortedKeys, dedupKeys, dedupKeysAux, lookupD,
      wwrite, Sink.failsAt, updateMap, *]

/-- C4 witness: the three shapes at concrete trim-empty inputs. -/
theorem empty_after_trim_emits_marker_without_recursion_witness :
    goProps 1 cfgRequired "v" ⟨false, 0⟩ sinkNew [("spec", vObjTrim)]
      = some (.ok (), ⟨false, 0⟩,
          ⟨[], 2, "" ++ (strRepeat 0 ++ "spec" ++ ":") ++ " \x7b\x7d\n"⟩,
          [("spec", vObjTrim.setProps (emptyAfterTrimRequired vObjTrim.properties vObjTrim.required).2)])
    ∧ goProps 1 cfgRequired "v" ⟨false, 0⟩ sinkNew [("arr", vArrTrim)]
      = some (.ok (), ⟨false, 0⟩,
          ⟨[], 3, ("" ++ (strRepeat 0 ++ "arr" ++ ":") ++ ("\n" ++ strRepeat 0 ++ "- "))
            ++ " \x7b\x7d\n"⟩,
          [("arr", vArrTrim.setItemProps
            (emptyAfterTrimRequired sItemTrim.properties sItemTrim.required).2)])
    ∧ goProps 1 cfgPlain "v" ⟨false, 0⟩ sinkNew [("m", vMapNil)]
      = some (.ok (), ⟨false, 0⟩,
          ⟨[], 2, "" ++ (strRepeat 0 ++ "m" ++ ":") ++ " \x7b\x7d\n"⟩,
          [("m", vMapNil)]) :=
  ⟨empty_after_trim_emits_marker_without_recursion.1 0 cfgRequired "v" "spec" vObjTrim 0 0 ""
      rfl rfl rfl rfl,
   empty_after_trim_emits_marker_without_recursion.2.1 0 cfgRequired "v" "arr" vArrTrim sItemTrim
      0 0 "" rfl rfl rfl rfl rfl rfl rfl rfl rfl rfl,
   empty_after_trim_emits_marker_without_recursion.2.2 0 cfgPlain "v" "m" vMapNil none 0 0 ""
      rfl rfl rfl⟩

/-- C6 counterexample: value synthesis aborts (nil-pointer dereference or
out-of-range index, a Go runtime panic rather than a returned error) on
an array-typed node without an item schema, and on a node with a non-nil
empty enum list. -/
theorem outputValueType_aborts :
    outputValueType (fun _ => false) (fun _ => "") vArrNoItems false = none
    ∧ outputValueType (fun _ => false) (fun _ => "") vEnumEmpty false = none :=
  ⟨rfl, rfl⟩

/-- C6 (amended): value synthesis cannot abort on schema nodes that are
well formed in the two respects the code relies on, namely every
array-typed node carries an item schema and any enum list present is
non-empty; on such nodes it always produces a value. -/
theorem outputValueType_total_on_wellformed (compiles : String → Bool)
    (regexGen : String → String) (v : Schema) (skip : Bool)
    (harr : v.type = "array" → ∃ s, v.items = some (some s))
    (henum : v.enum ≠ some []) :
    (outputValueType compiles regexGen v skip).isSome = true := by
  cases hdv : v.defaultVal with
  | some d => simp [outputValueType, hdv]
  | none =>
    cases hev : v.exampleVal with
    | some e => simp [outputValueType, hdv, hev]
    | none =>
      by_cases hpat : (v.pattern != "" && !skip && compiles v.pattern) = true
      · simp [outputValueType, hdv, hev, hpat]
      · rw [Bool.not_eq_true] at hpat
        cases hen : v.enum with
        | some l =>
          cases l with
          | nil => exact absurd hen henum
          | cons e rest => simp [outputValueType, hdv, hev, hpat, hen]
        | none =>
          by_cases h1 : v.type = "string"
          · simp [outputValueType, hdv, hev, hpat, hen, h1]
          · by_cases h2 : v.type = "integer"
            · simp [outputValueType, hdv, hev, hpat, hen, h1, h2]
            · by_cases h3 : v.type = "boolean"
              · simp [outputValueType, hdv, hev, hpat, hen, h1, h2, h3]
              · by_cases h4 : v.type = "object"
                · simp [outputValueType, hdv, hev, hpat, hen, h1, h2, h3, h4]
                · by_cases h5 : v.type = "array"
                  · obtain ⟨s, hs⟩ := harr h5
                    simp [outputValueType, hdv, hev, hpat, hen, h1, h2, h3, h4, h5, hs]
                  · simp [outputValueType, hdv, hev, hpat, hen, h1, h2, h3, h4, h5]

/-- C6 witness: on a well-formed array node with an item schema and a
non-empty enum, synthesis yields a value. -/
theorem outputValueType_total_on_wellformed_witness :
    (outputValueType (fun _ => false) (fun _ => "") vWellFormed false).isSome = true :=
  outputValueType_total_on_wellformed _ _ _ _ (fun _ => ⟨leafString, rfl⟩) (by decide)

/-- C7 counterexample: with comments enabled, the first field emitted in
array-item context does not receive its description comment.  The item
field b carries description d, yet the emitted document contains no
comment character at all, because the in-array branch writes the key
directly and skips the comment code path. -/
theorem first_array_item_field_comment_suppressed :
    (goProps 3 cfgComments "v1" ⟨false, 0⟩ sinkNew c7props).map
        (fun r => (r.1, r.2.2.1.out))
      = some (.ok (), "a:\n- b: string\n")
    ∧ leafDesc.description ≠ "" ∧ cfgComments.comments = true
    ∧ ("a:\n- b: string\n".data.contains '#') = false :=
  ⟨rfl, by decide, rfl, by decide⟩

/-- C7 (amended): with comments enabled, every field that is emitted
outside array-item context (the in-array flag clear) and has a non-empty
description gets one comment line per description line, each indented to
the current level, immediately before its key line; the first field
emitted inside an array-item context is excluded (its key is written as a
sequence item and the comment path is skipped, see the counterexample). -/
theorem comments_precede_field_key_line (fuel : Nat) (cfg : Config) (ver k : String)
    (v : Schema) (ind c : Nat) (o val : String)
    (hc : cfg.comments = true) (hd : v.description ≠ "")
    (hp : v.properties = []) (ha : v.addProps = none) (hty : (v.type == "array") = false)
    (hk1 : (k == "apiVersion") = false) (hk2 : (k == "kind") = false)
    (hout : outputValueType cfg.compiles cfg.regexGen v cfg.skipRandom = some val) :
    goProps (fuel + 1) cfg ver ⟨false, ind⟩ ⟨[], c, o⟩ [(k, v)]
      = some (.ok (), ⟨false, ind⟩,
          ⟨[], c + 3,
            ((o ++ commentBlock ind (splitLines v.description))
              ++ (strRepeat ind ++ k ++ ":")) ++ (" " ++ val ++ "\n")⟩,
          [(k, v)]) := by
  simp [goProps, goLoop, goStep, goStepCore, applyAct, emitHead, sortedKeys, dedupKeys, dedupKeysAux, lookupD, wwrite,
    Sink.failsAt, hc, hd, hp, ha, hty, hk1, hk2, hout, foldl_comment_eq, String.empty_append]

/-- C7 witness: a leaf with description d, comments enabled, emitted at
depth zero with its comment line first. -/
theorem comments_precede_field_key_line_witness :
    goProps 1 cfgComments "v1" ⟨false, 0⟩ sinkNew [("x", leafDesc)]
      = some (.ok (), ⟨false, 0⟩,
          ⟨[], 3,
            (("" ++ commentBlock 0 (splitLines leafDesc.description))
              ++ (strRepeat 0 ++ "x" ++ ":")) ++ (" " ++ "string" ++ "\n")⟩,
          [("x", leafDesc)]) :=
  comments_precede_field_key_line 0 cfgComments "v1" "x" leafDesc 0 0 "" "string"
    rfl (by decide) rfl rfl rfl rfl rfl rfl

/-- Helper for C8: the key/comment emission never changes the indent. -/
theorem emitHead_indent (cfg : Config) (k : String) (werr : Option String) (st : PState)
    (snk : Sink) (v : Schema) :
    (emitHead cfg k werr st snk v).2.2.indent = st.indent := by
  unfold emitHead
  split <;> simp

/-- Helper for C8: one field-loop iteration body restores the indent
whenever it completes normally, provided the recursive call does. -/
theorem goStepCore_ok_indent (cfg : Config) (ver : String)
    (child : PState → Sink → PropsMap → ChildRes) (k : String) (werr : Option String)
    (st : PState) (snk : Sink) (v : Schema)
    (hchild : ∀ stc snkc prc st3 snk3 pr3,
      child stc snkc prc = some (.ok (), st3, snk3, pr3) → st3.indent = stc.indent) :
    ∀ werr2 st2 snk2 act,
      goStepCore cfg ver child k werr st snk v = some (.ok (werr2, st2, snk2, act)) →
      st2.indent = st.indent := by
  intro werr2 st2 snk2 act h
  simp only [goStepCore] at h
  repeat' split at h
  all_goals first
    | exact Option.noConfusion h
    | (injection h with h; exact Except.noConfusion h)
    | (injection h with h; injection h with h; injection h with h1 h; injection h with h2 h
       subst h2
       simp [emitHead_indent]
       done)
    | (rename_i x1 x2 x3 x4 x5
       have hoi := hchild _ _ _ _ _ _ x5
       injection h with h; injection h with h; injection h with h1 h; injection h with h2 h
       subst h2
       simp [emitHead_indent] at hoi ⊢
       omega)

/-- Helper for C8: one field-loop iteration restores the indent whenever
it completes normally, provided the recursive call does. -/
theorem goStep_ok_indent (cfg : Config) (ver : String)
    (child : PState → Sink → PropsMap → ChildRes) (k : String) (werr : Option String)
    (st : PState) (snk : Sink) (props : PropsMap)
    (hchild : ∀ stc snkc prc st3 snk3 pr3,
      child stc snkc prc = some (.ok (), st3, snk3, pr3) → st3.indent = stc.indent) :
    ∀ werr2 st2 snk2 props2,
      goStep cfg ver child k werr st snk props = some (.ok (werr2, st2, snk2, props2)) →
      st2.indent = st.indent := by
  intro werr2 st2 snk2 props2 h
  simp only [goStep] at h
  split at h
  · exact Option.noConfusion h
  · injection h with h; exact Except.noConfusion h
  · next w3 s3 k3 a3 heq =>
    injection h with h; injection h with h; injection h with h1 h; injection h with h2 h
    rw [← h2]
    exact goStepCore_ok_indent cfg ver child k werr st snk _ hchild _ _ _ _ heq

/-- Helper for C8: the field loop restores the indent whenever it
completes normally. -/
theorem goLoop_ok_indent (cfg : Config) (ver : String)
    (child : PState → Sink → PropsMap → ChildRes)
    (hchild : ∀ stc snkc prc st3 snk3 pr3,
      child stc snkc prc = some (.ok (), st3, snk3, pr3) → st3.indent = stc.indent) :
    ∀ keys werr st snk props werr2 st2 snk2 props2,
      goLoop cfg ver child keys werr st snk props = some (.ok (werr2, st2, snk2, props2)) →
      st2.indent = st.indent := by
  intro keys
  induction keys with
  | nil =>
    intro werr st snk props werr2 st2 snk2 props2 h
    rw [goLoop] at h
    injection h with h; injection h with h; injection h with h1 h; injection h with h2 h
    rw [← h2]
  | cons k rest ih =>
    intro werr st snk props werr2 st2 snk2 props2 h
    rw [goLoop] at h
    split at h
    · exact Option.noConfusion h
    · injection h with h; exact Except.noConfusion h
    · next w3 s3 k3 p3 heq =>
      have hs := goStep_ok_indent cfg ver child k werr st snk props hchild _ _ _ _ heq
      have hl := ih _ _ _ _ _ _ _ _ h
      rw [hl, hs]

/-- C8 counterexample: with a sink whose writes fail, a run over a nested
object returns the propagated write error and leaves the parser indent at
2, not the pre-call 0: the early `return err` paths skip the indent
decrement. -/
theorem indent_not_restored_on_write_failure :
    (goProps 2 cfgPlain "v" ⟨false, 0⟩ sinkFailing c8props).map
        (fun r => (r.1, r.2.1.indent))
      = some (.error "failed to write to file: write error", 2)
    ∧ (2 : Nat) ≠ 0 :=
  ⟨rfl, by decide⟩

/-- C8 (amended): on every run that returns without error the traversal
state indent is restored to its pre-call value; on error-propagation
returns it need not be (see the counterexample). -/
theorem parser_indent_restored_on_ok :
    ∀ fuel cfg ver st snk props st2 snk2 props2,
      goProps fuel cfg ver st snk props = some (.ok (), st2, snk2, props2) →
      st2.indent = st.indent := by
  intro fuel
  induction fuel with
  | zero =>
    intro cfg ver st snk props st2 snk2 props2 h
    exact Option.noConfusion h
  | succ fuel ih =>
    intro cfg ver st snk props st2 snk2 props2 h
    simp only [goProps] at h
    split at h
    · exact Option.noConfusion h
    · injection h with h; injection h with h1 h; exact Except.noConfusion h1
    · next w3 s3 k3 p3 heq =>
      split at h
      · injection h with h; injection h with h1 h; exact Except.noConfusion h1
      · injection h with h; injection h with h1 h; injection h with h2 h
        rw [← h2]
        exact goLoop_ok_indent cfg ver _
          (fun stc snkc prc st3 snk3 pr3 hc => ih cfg ver stc snkc prc st3 snk3 pr3 hc)
          _ _ _ _ _ _ _ _ _ heq

/-- C8 witness: a successful run over a nested object returns with the
indent it started from. -/
theorem parser_indent_restored_on_ok_witness :
    goProps 2 cfgPlain "v" ⟨false, 0⟩ sinkNew c8props
      = some (.ok (), ⟨false, 0⟩, ⟨[], 4, "s:\n  a: string\n"⟩, c8props)
    ∧ (⟨false, 0⟩ : PState).indent = (⟨false, 0⟩ : PState).indent :=
  ⟨by rfl, parser_indent_restored_on_ok 2 cfgPlain "v" ⟨false, 0⟩ sinkNew c8props
    ⟨false, 0⟩ ⟨[], 4, "s:\n  a: string\n"⟩ c8props (by rfl)⟩

/-- Helper for C10: sequencing preserves never-erroring. -/
theorem exBind_never_errors {α β : Type} (x : Option (Except String α))
    (f : α → Option (Except String β))
    (hx : ∀ r, x = some r → ∃ l, r = .ok l)
    (hf : ∀ a r, f a = some r → ∃ l, r = .ok l) :
    ∀ r, exBind x f = some r → ∃ l, r = .ok l := by
  intro r h
  cases x with
  | none => exact absurd h (by simp [exBind])
  | some ex =>
    cases ex with
    | error e => obtain ⟨l, hl⟩ := hx (.error e) rfl; cases hl
    | ok a => exact hf a r (by simpa [exBind] using h)

/-- Helper for C10: the parseCRD loop never fabricates an error of its
own; it only passes errors of the recursive call through. -/
theorem crdLoop_never_errors (ver : String)
    (child : PropsMap → List String → Option (Except String (List Property)))
    (hchild : ∀ p r res, child p r = some res → ∃ l, res = .ok l) :
    ∀ keys props req res, crdLoop ver child keys props req = some res → ∃ l, res = .ok l := by
  intro keys
  induction keys with
  | nil =>
    intro props req res h
    rw [crdLoop] at h
    injection h with h
    exact ⟨[], h.symm⟩
  | cons k rest ih =>
    intro props req res h
    simp only [crdLoop] at h
    repeat' split at h
    all_goals first
      | exact Option.noConfusion h
      | exact exBind_never_errors _ _ (fun r hr => hchild _ _ _ hr)
          (fun a r hr => exBind_never_errors _ _ (fun r2 h2 => ih _ _ _ h2)
            (fun b r2 h2 => by injection h2 with h3; exact ⟨_, h3.symm⟩) r hr) res h
      | exact exBind_never_errors _ _ (fun r2 h2 => ih _ _ _ h2)
          (fun b r2 h2 => by injection h2 with h3; exact ⟨_, h3.symm⟩) res h

/-- C10 counterexample: parseCRD does not always hand the caller a
descriptor list; on a field declared with `additionalProperties: true`
(AdditionalProperties present, schema pointer nil) the call aborts with a
nil-pointer dereference instead of returning. -/
theorem parseCRD_aborts_on_nil_addprops_schema :
    parseCRD c10props "v" [] = none := rfl

/-- C10 (amended): whenever parseCRD returns at all, its error result is
nil; the failure-propagation path cannot produce an error of its own, so
every normal return carries a descriptor list.  (The claim fails only in
that some inputs abort instead of returning, see the counterexample.) -/
theorem parseCRD_never_errors :
    ∀ fuel props ver req res, parseCRDgo fuel props ver req = some res →
      ∃ l, res = .ok l := by
  intro fuel
  induction fuel with
  | zero => intro props ver req res h; exact absurd h (by simp [parseCRDgo])
  | succ fuel ih =>
    intro props ver req res h
    rw [parseCRDgo] at h
    exact crdLoop_never_errors ver _ (fun p r res2 hc => ih p ver r res2 hc) _ props req res h

/-- C10 witness: a concrete call that returns does return a list. -/
theorem parseCRD_never_errors_witness :
    ∃ res, parseCRDgo 2 [("a", leafString)] "v" [] = some res ∧ ∃ l, res = Except.ok l := by
  refine ⟨Except.ok [Property.mk "a" "" "string" false "" "" 0 "v" "" false []], by rfl, ?_⟩
  exact parseCRD_never_errors 2 [("a", leafString)] "v" [] _ (by rfl)

/-! Order lemmas for C9. -/

theorem charsLe_total : ∀ a b : List Char, charsLe a b = true ∨ charsLe b a = true
  | [], _ => .inl rfl
  | _ :: _, [] => .inr rfl
  | a :: as, b :: bs => by
    by_cases hab : a = b
    · subst hab
      rcases charsLe_total as bs with h | h <;> simp [charsLe, h]
    · have hba : b ≠ a := fun h => hab h.symm
      rcases lt_trichotomy a b with h | h | h
      · exact .inl (by simp [charsLe, hab, h])
      · exact absurd h hab
      · exact .inr (by simp [charsLe, hba, h])

theorem charsLe_trans : ∀ a b c : List Char,
    charsLe a b = true → charsLe b c = true → charsLe a c = true
  | [], _, _, _, _ => rfl
  | _ :: _, [], _, h, _ => by simp [charsLe] at h
  | _ :: _, _ :: _, [], _, h => by simp [charsLe] at h
  | a :: as, b :: bs, c :: cs, h1, h2 => by
    by_cases hab : a = b <;> by_cases hbc : b = c
    · subst hab; subst hbc
      simp only [charsLe, if_pos rfl] at h1 h2 ⊢
      exact charsLe_trans as bs cs h1 h2
    · subst hab
      simp only [charsLe, if_pos rfl, if_neg hbc] at h2
      simp only [charsLe, if_neg hbc]
      exact h2
    · subst hbc
      simp only [charsLe, if_pos rfl, if_neg hab] at h1
      simp only [charsLe, if_neg hab]
      exact h1
    · simp only [charsLe, if_neg hab, if_neg hbc, decide_eq_true_eq] at h1 h2
      have hac : a < c := lt_trans h1 h2
      simp [charsLe, ne_of_lt hac, hac]

theorem charsLe_antisymm : ∀ a b : List Char,
    charsLe a b = true → charsLe b a = true → a = b
  | [], [], _, _ => rfl
  | [], _ :: _, _, h2 => by simp [charsLe] at h2
  | _ :: _, [], h1, _ => by simp [charsLe] at h1
  | a :: as, b :: bs, h1, h2 => by
    by_cases hab : a = b
    · subst hab
      simp only [charsLe, if_pos rfl] at h1 h2
      rw [charsLe_antisymm as bs h1 h2]
    · have hba : b ≠ a := fun h => hab h.symm
      simp only [charsLe, if_neg hab, decide_eq_true_eq] at h1
      simp only [charsLe, if_neg hba, decide_eq_true_eq] at h2
      exact absurd h2 (lt_asymm h1)

/-- Helper for C9: deduplication does nothing on a duplicate-free key list. -/
theorem dedupKeysAux_of_nodup : ∀ (l seen : List String), l.Nodup → (∀ x ∈ l, x ∉ seen) →
    dedupKeysAux l seen = l := by
  intro l
  induction l with
  | nil => intro seen _ _; rfl
  | cons k rest ih =>
    intro seen hnd hs
    have hk : k ∉ seen := hs k (by simp)
    rw [dedupKeysAux, if_neg (by simpa using hk)]
    rw [ih (k :: seen) hnd.of_cons]
    intro x hx
    simp only [List.mem_cons, not_or]
    exact ⟨fun he => (List.nodup_cons.mp hnd).1 (he ▸ hx), hs x (List.mem_cons_of_mem _ hx)⟩

theorem dedupKeys_of_nodup (l : List String) (h : l.Nodup) : dedupKeys l = l :=
  dedupKeysAux_of_nodup l [] h (by simp)

/-- Helper for C9: map lookups agree across a permutation with unique keys. -/
theorem lookupD_perm : ∀ {l1 l2 : PropsMap}, l1.Perm l2 → (l1.map Prod.fst).Nodup →
    ∀ k, lookupD l1 k = lookupD l2 k := by
  intro l1 l2 hp
  induction hp with
  | nil => intro _ _; rfl
  | cons x hp ih =>
    intro hnd k
    obtain ⟨kx, vx⟩ := x
    simp only [lookupD]
    by_cases h : kx = k
    · simp [h]
    · simp only [if_neg h]
      exact ih (by simpa using (List.nodup_cons.mp (by simpa using hnd)).2) k
  | swap x y l =>
    intro hnd k
    obtain ⟨kx, vx⟩ := x
    obtain ⟨ky, vy⟩ := y
    have hne : ky ≠ kx := by
      simp only [List.map_cons, List.nodup_cons, List.mem_cons] at hnd
      exact fun he => hnd.1 (.inl he)
    simp only [lookupD]
    by_cases h1 : ky = k <;> by_cases h2 : kx = k
    · exact absurd (h1.trans h2.symm) hne
    · simp [h1, h2]
    · simp [h1, h2]
    · simp [h1, h2]
  | trans hp1 hp2 ih1 ih2 =>
    intro hnd k
    have hnd2 := (hp1.map Prod.fst).nodup hnd
    rw [ih1 hnd k, ih2 hnd2 k]

/-- Helper for C9: the sorted key list is the same for any two
association lists representing the same Go map. -/
theorem sortedKeys_perm_eq {l1 l2 : PropsMap} (hp : l1.Perm l2)
    (hnd : (l1.map Prod.fst).Nodup) : sortedKeys l1 = sortedKeys l2 := by
  haveI : IsTotal String StrLe := ⟨fun a b => charsLe_total a.data b.data⟩
  haveI : IsTrans String StrLe := ⟨fun a b c => charsLe_trans a.data b.data c.data⟩
  haveI : IsAntisymm String StrLe :=
    ⟨fun a b h1 h2 => by
      cases a; cases b
      exact congrArg String.mk (charsLe_antisymm _ _ h1 h2)⟩
  have hmap : (l1.map Prod.fst).Perm (l2.map Prod.fst) := hp.map _
  have hnd2 : (l2.map Prod.fst).Nodup := hmap.nodup hnd
  unfold sortedKeys
  rw [dedupKeys_of_nodup _ hnd, dedupKeys_of_nodup _ hnd2]
  exact List.eq_of_perm_of_sorted
    ((List.perm_insertionSort _ _).trans (hmap.trans (List.perm_insertionSort _ _).symm))
    (List.sorted_insertionSort _ _) (List.sorted_insertionSort _ _)

/-- Helper for C9: inversion of a successful sequencing. -/
theorem exBind_ok {α β : Type} {x : Option (Except String α)}
    {f : α → Option (Except String β)} {r : β}
    (h : exBind x f = some (.ok r)) : ∃ a, x = some (.ok a) ∧ f a = some (.ok r) := by
  cases x with
  | none => exact absurd h (by simp [exBind])
  | some ex =>
    cases ex with
    | error e => simp [exBind] at h
    | ok a => exact ⟨a, rfl, by simpa [exBind] using h⟩

/-- Helper for C9: a completed parseCRD loop emits exactly one descriptor
per key, in key order. -/
theorem crdLoop_names (ver : String)
    (child : PropsMap → List String → Option (Except String (List Property))) :
    ∀ keys props req out, crdLoop ver child keys props req = some (.ok out) →
      out.map Property.name = keys := by
  intro keys
  induction keys with
  | nil =>
    intro props req out h
    rw [crdLoop] at h
    injection h with h
    injection h with h
    rw [← h]
    rfl
  | cons k rest ih =>
    intro props req out h
    simp only [crdLoop] at h
    repeat' split at h
    all_goals first
      | exact Option.noConfusion h
      | (obtain ⟨a, hx, hf⟩ := exBind_ok h
         obtain ⟨b, hx2, hf2⟩ := exBind_ok hf
         injection hf2 with hf2
         injection hf2 with hf2
         rw [← hf2]
         simp only [List.map_cons, Property.setChildren, Property.name]
         rw [ih _ _ _ hx2])
      | (obtain ⟨b, hx2, hf2⟩ := exBind_ok h
         injection hf2 with hf2
         injection hf2 with hf2
         rw [← hf2]
         simp only [List.map_cons, Property.name]
         rw [ih _ _ _ hx2])

/-- Helper for C9: the parseCRD loop only reads the enclosing map through
key lookups, so lookup-equal maps give identical results. -/
theorem crdLoop_congr (ver : String)
    (child : PropsMap → List String → Option (Except String (List Property))) :
    ∀ keys props props2 req, (∀ k, lookupD props k = lookupD props2 k) →
      crdLoop ver child keys props req = crdLoop ver child keys props2 req := by
  intro keys
  induction keys with
  | nil => intro props props2 req hl; rfl
  | cons k rest ih =>
    intro props props2 req hl
    have hrw : ∀ r, crdLoop ver child rest props r = crdLoop ver child rest props2 r :=
      fun r => ih props props2 r hl
    rw [crdLoop, crdLoop, hl k]
    simp only [hrw]

/-- Helper for C9: a map update leaves the key list unchanged. -/
theorem updateMap_keys (props : PropsMap) (k : String) (v : Schema) :
    (updateMap props k v).map Prod.fst = props.map Prod.fst := by
  unfold updateMap
  rw [List.map_map]
  apply List.map_congr_left
  intro p _
  by_cases h : p.1 = k <;> simp [h]

/-- Helper for C9: map updates respect map representation equivalence. -/
theorem MapRel_update {m1 m2 : PropsMap} (h : MapRel m1 m2) (k : String) (v : Schema) :
    MapRel (updateMap m1 k v) (updateMap m2 k v) :=
  ⟨h.1.map _, by rw [updateMap_keys]; exact h.2⟩

/-- Helper for C9: applying a map effect respects map equivalence. -/
theorem applyAct_rel {m1 m2 : PropsMap} (hm : MapRel m1 m2) (k : String) :
    ∀ act, MapRel (applyAct m1 k act) (applyAct m2 k act)
  | .keep => hm
  | .update v2 => MapRel_update hm k v2

/-- Helper for C9: one field-loop iteration behaves the same on any two
association lists representing the same Go map. -/
theorem goStep_rel (cfg : Config) (ver : String)
    (child : PState → Sink → PropsMap → ChildRes) (k : String) (werr : Option String)
    (st : PState) (snk : Sink) {props1 props2 : PropsMap} (hm : MapRel props1 props2) :
    stepRel (goStep cfg ver child k werr st snk props1)
            (goStep cfg ver child k werr st snk props2) := by
  have hv := lookupD_perm hm.1 hm.2 k
  simp only [goStep, hv]
  split
  · rfl
  · exact ⟨applyAct _ k _, rfl, applyAct_rel hm k _⟩
  · exact ⟨applyAct _ k _, rfl, applyAct_rel hm k _⟩

/-- Helper for C9: the field loop behaves the same on any two association
lists representing the same Go map. -/
theorem goLoop_rel (cfg : Config) (ver : String)
    (child : PState → Sink → PropsMap → ChildRes) :
    ∀ keys werr st snk {props1 props2 : PropsMap}, MapRel props1 props2 →
      stepRel (goLoop cfg ver child keys werr st snk props1)
              (goLoop cfg ver child keys werr st snk props2) := by
  intro keys
  induction keys with
  | nil =>
    intro werr st snk props1 props2 hm
    exact ⟨props2, rfl, hm⟩
  | cons k rest ih =>
    intro werr st snk props1 props2 hm
    have hs := goStep_rel cfg ver child k werr st snk hm
    rw [goLoop, goLoop]
    cases h1 : goStep cfg ver child k werr st snk props1 with
    | none =>
      rw [h1] at hs
      have hs2 : goStep cfg ver child k werr st snk props2 = none := hs
      rw [hs2]
      rfl
    | some x1 =>
      rw [h1] at hs
      cases x1 with
      | error t1 =>
        obtain ⟨e1, st1, s1, m1⟩ := t1
        obtain ⟨m2, h2, hmr⟩ := hs
        rw [h2]
        exact ⟨m2, rfl, hmr⟩
      | ok t1 =>
        obtain ⟨w1, st1, s1, m1⟩ := t1
        obtain ⟨m2, h2, hmr⟩ := hs
        rw [h2]
        exact ih _ _ _ hmr

/-- Helper for C9: a full emitter run produces the same result, state and
output on any two association lists representing the same Go map. -/
theorem goProps_rel (fuel : Nat) (cfg : Config) (ver : String) (st : PState) (snk : Sink)
    {props1 props2 : PropsMap} (hm : MapRel props1 props2) :
    runOut (goProps fuel cfg ver st snk props1)
      = runOut (goProps fuel cfg ver st snk props2) := by
  cases fuel with
  | zero => rfl
  | succ fuel =>
    rw [goProps, goProps, sortedKeys_perm_eq hm.1 hm.2]
    have hl := goLoop_rel cfg ver (goProps fuel cfg ver) (sortedKeys props2) none st snk hm
    cases h1 : goLoop cfg ver (goProps fuel cfg ver) (sortedKeys props2) none st snk props1 with
    | none =>
      rw [h1] at hl
      have hl2 : goLoop cfg ver (goProps fuel cfg ver) (sortedKeys props2) none st snk props2
          = none := hl
      rw [hl2]
    | some x1 =>
      rw [h1] at hl
      cases x1 with
      | error t1 =>
        obtain ⟨e1, st1, s1, m1⟩ := t1
        obtain ⟨m2, h2, hmr⟩ := hl
        rw [h2]
        rfl
      | ok t1 =>
        obtain ⟨w1, st1, s1, m1⟩ := t1
        obtain ⟨m2, h2, hmr⟩ := hl
        rw [h2]
        cases w1 <;> rfl

/-- C9: both traversals visit fields in lexicographic key order,
independently of the declaration order of the mapping.  Conjunct one:
the key list both walks iterate is sorted lexicographically and is a
permutation of the (deduplicated) declared keys.  Conjunct two: the tree
builder emits exactly one descriptor per key, in that sorted order.
Conjuncts three and four: both the tree builder and the emitter produce
identical output on any two declaration orders of the same mapping. -/
theorem traversal_order_lexicographic :
    (∀ props, List.Sorted StrLe (sortedKeys props)
      ∧ (sortedKeys props).Perm (dedupKeys (props.map Prod.fst)))
    ∧ (∀ fuel props ver req out, parseCRDgo (fuel + 1) props ver req = some (.ok out) →
        out.map Property.name = sortedKeys props)
    ∧ (∀ fuel ver req (l1 l2 : PropsMap), l1.Perm l2 → (l1.map Prod.fst).Nodup →
        parseCRDgo fuel l1 ver req = parseCRDgo fuel l2 ver req)
    ∧ (∀ fuel cfg ver st snk (l1 l2 : PropsMap), l1.Perm l2 → (l1.map Prod.fst).Nodup →
        runOut (goProps fuel cfg ver st snk l1) = runOut (goProps fuel cfg ver st snk l2)) := by
  refine ⟨?_, ?_, ?_, ?_⟩
  · intro props
    haveI : IsTotal String StrLe := ⟨fun a b => charsLe_total a.data b.data⟩
    haveI : IsTrans String StrLe := ⟨fun a b c => charsLe_trans a.data b.data c.data⟩
    exact ⟨List.sorted_insertionSort _ _, List.perm_insertionSort _ _⟩
  · intro fuel props ver req out h
    rw [parseCRDgo] at h
    exact crdLoop_names ver _ _ _ _ _ h
  · intro fuel ver req l1 l2 hp hnd
    cases fuel with
    | zero => rfl
    | succ fuel =>
      rw [parseCRDgo, parseCRDgo, sortedKeys_perm_eq hp hnd]
      exact crdLoop_congr ver _ (sortedKeys l2) l1 l2 req (lookupD_perm hp hnd)
  · intro fuel cfg ver st snk l1 l2 hp hnd
    exact goProps_rel fuel cfg ver st snk ⟨hp, hnd⟩

/-- C9 witness: an intentionally out-of-order two-field mapping gives the
same tree and the same document as its sorted declaration, and the tree
names come out sorted. -/
theorem traversal_order_lexicographic_witness :
    parseCRDgo 2 [("b", leafString), ("a", leafString)] "v" []
      = parseCRDgo 2 [("a", leafString), ("b", leafString)] "v" []
    ∧ runOut (goProps 2 cfgPlain "v" ⟨false, 0⟩ sinkNew [("b", leafString), ("a", leafString)])
      = runOut (goProps 2 cfgPlain "v" ⟨false, 0⟩ sinkNew [("a", leafString), ("b", leafString)])
    ∧ ∃ out, parseCRDgo 2 [("b", leafString), ("a", leafString)] "v" [] = some (.ok out)
        ∧ out.map Property.name = ["a", "b"] := by
  refine ⟨
    traversal_order_lexicographic.2.2.1 2 "v" [] _ _
      (List.Perm.swap ("a", leafString) ("b", leafString) []) (by decide),
    traversal_order_lexicographic.2.2.2 2 cfgPlain "v" ⟨false, 0⟩ sinkNew _ _
      (List.Perm.swap ("a", leafString) ("b", leafString) []) (by decide),
    ⟨[Property.mk "a" "" "string" false "" "" 0 "v" "" false [],
      Property.mk "b" "" "string" false "" "" 0 "v" "" false []], by rfl, ?_⟩⟩
  exact traversal_order_lexicographic.2.1 1 [("b", leafString), ("a", leafString)] "v" [] _
    (by rfl)

end CrdYaml
